import Mathlib

/-!
Verification development for the Bespoke lab-automation orchestrator
(`src/bespoke/lib/core/__init__.py`).

The execution state machine and resource-locking scheduler are embedded
shallowly:

* `SutState` embeds the concurrency state of `SystemUnderTest`
  (`_in_use`, `_lock_expiration`); wall-clock instants are modelled as
  integers, and each lock operation takes the current instant `now` as an
  explicit argument (the Python code reads `datetime.now()`).
* `SutState.checkout`, `SutState.checkin`, `SutState.update_lock_timeout`
  embed the three lock methods.  Exceptions are modelled as explicit error
  values; mutation that happens before an exception is raised is kept, so a
  caller observes exactly the partial state the Python object would have.
* The virtual-machine handle is abstracted to the two calls the lock code
  makes (`setup()`/`tear_down()`); the trace of those calls is returned as a
  list of `MachineEvent`s, and a `setupFails` flag says whether
  `machine.setup()` raises (the raised `VMError` propagates to the caller,
  recorded in the `setupRaised` field of the result).
* `TestCase`, `TestPlan`, `TestRun` execution is embedded over an
  association list `alias -> SutState` standing for the shared
  `SystemUnderTest` objects, with the outcome of each queued unit
  (returns normally / raises `Failure` / raises `FatalError`) supplied by an
  oracle `outcomes : Nat -> UnitOutcome`, since the unit bodies only talk to
  the remote agent and never touch the lock state.
-/

namespace Bespoke

/-- Embeds `BespokeGlobals.MAX_CHECKOUT_TIME`. -/
def maxCheckoutTime : Int := 7200

/-- Test/TestContainer status vocabulary (`_Test.status`). -/
inductive Status
  | notRan
  | running
  | paused
  | pass
  | fail
  | fatal
  | critical
deriving DecidableEq, Repr

/-- Calls made on the underlying `_VirtualMachine` handle by the lock code. -/
inductive MachineEvent
  | setup
  | tearDown
deriving DecidableEq, Repr

/-- The concurrency state of a `SystemUnderTest`: `_in_use` and
`_lock_expiration`. -/
structure SutState where
  in_use : Bool
  lock_expiration : Int
deriving DecidableEq, Repr

/-- Construction: `SystemUnderTest.__init__` sets `_in_use = False` and
`_lock_expiration = datetime.now()` (the construction instant `t0`). -/
def SutState.new (t0 : Int) : SutState :=
  { in_use := false, lock_expiration := t0 }

/-- Errors raised by `SystemUnderTest.checkout` before any mutation:
`FatalError("Timeout is out of range!")` and
`CoreError("This SystemUnderTest is in use currently!")`. -/
inductive CheckoutErr
  | rangeFatal
  | busy
deriving DecidableEq, Repr

/-- Errors raised by `SystemUnderTest.update_lock_timeout`:
`FatalError("Timeout is out of range!")` and
`CoreError("This SystemUnderTest is not currently checked-out!")`. -/
inductive UpdateLockErr
  | rangeFatal
  | notCheckedOut
deriving DecidableEq, Repr

/-- Result of `SystemUnderTest.checkout`: the lock state after the call (the
state of the Python object whether or not an exception was raised), the machine
calls performed, the lock-contract exception raised (if any), and whether
`machine.setup()` raised a `VMError` that propagates to the caller. -/
structure SutOut where
  state : SutState
  events : List MachineEvent
  err : Option CheckoutErr
  setupRaised : Bool
deriving DecidableEq, Repr

/-- Embeds `SystemUnderTest.checkin`: no-op unless `_in_use`; otherwise clears
`_in_use`, resets `_lock_expiration` to `now` and calls
`machine.tear_down()`. -/
def SutState.checkin (s : SutState) (now : Int) : SutState × List MachineEvent :=
  if s.in_use then ({ in_use := false, lock_expiration := now }, [.tearDown])
  else (s, [])

/-- Embeds `SystemUnderTest.checkout`:
raises range `FatalError` unless `0 < timeout <= MAX_CHECKOUT_TIME`; raises
busy `CoreError` if `_in_use` and `now < _lock_expiration`; performs an
implicit `checkin` if `_in_use` and `now > _lock_expiration`; then sets
`_in_use = True`, `_lock_expiration = now + timeout` and calls
`machine.setup()` (whose `VMError`, if `setupFails`, propagates after the
state was already mutated). -/
def SutState.checkout (s : SutState) (now timeout : Int) (setupFails : Bool) :
    SutOut :=
  if ¬(0 < timeout ∧ timeout ≤ maxCheckoutTime) then
    { state := s, events := [], err := some .rangeFatal, setupRaised := false }
  else if s.in_use ∧ now < s.lock_expiration then
    { state := s, events := [], err := some .busy, setupRaised := false }
  else
    let p := if s.in_use ∧ now > s.lock_expiration then s.checkin now else (s, [])
    { state := { in_use := true, lock_expiration := now + timeout },
      events := p.2 ++ [.setup],
      err := none,
      setupRaised := setupFails }

/-- Embeds `SystemUnderTest.update_lock_timeout`: range check, then
`CoreError` if not `_in_use`, else `_lock_expiration = now + timeout`
(absolute reset). -/
def SutState.update_lock_timeout (s : SutState) (now timeout : Int) :
    Except UpdateLockErr SutState :=
  if ¬(0 < timeout ∧ timeout ≤ maxCheckoutTime) then .error .rangeFatal
  else if ¬s.in_use then .error .notCheckedOut
  else .ok { s with lock_expiration := now + timeout }

/-! ### Shared SystemUnderTest objects

The `SystemUnderTest` objects referenced by a `TestCase` are shared mutable
Python objects; we model the heap of lock states as an association list from
SUT alias to `SutState`, with first-match lookup and first-match in-place
update (keys are unique in every intended state because `add_test_prep`
rejects duplicate aliases). -/

/-- alias -> lock state heap for the shared `SystemUnderTest` objects. -/
abbrev SutMap : Type := List (String × SutState)

/-- First-match lookup of the lock state of a SUT by alias. -/
def lookupSut : SutMap → String → Option SutState
  | [], _ => none
  | (a, s) :: rest, alias' => if a = alias' then some s else lookupSut rest alias'

/-- Replace the first entry for `alias'` (no-op if absent: the map never
gains or loses keys, mirroring in-place mutation of an existing object). -/
def setSut : SutMap → String → SutState → SutMap
  | [], _, _ => []
  | (a, s) :: rest, alias', s' =>
    if a = alias' then (a, s') :: rest else (a, s) :: setSut rest alias' s'

/-! ### Test units and the TestCase structure -/

/-- The data of a `TestPrep` as created by `TestCase.add_test_prep`
(`TestPrep(resource_id, sut, timeout, post_wait, checkpoint)`; the unit
`name` is the `resource_id`, and the SUT is referenced by its alias). -/
structure TestPrepU where
  resource_id : String
  sut_alias : String
  timeout : Int
  post_wait : Int
  checkpoint : String
deriving DecidableEq, Repr

/-- A queued unit of work in `TestCase._tests`.  The remote-agent details of
each unit (scripts, parameters, install properties) never touch the lock
state, so they are carried only as far as the orchestration claims need
them. -/
inductive TestUnit
  | prep (p : TestPrepU)
  | basicInstaller (toolName sutAlias : String) (timeout : Int)
  | msiInstaller (toolName sutAlias : String) (timeout : Int)
  | step (desc sutAlias test_directory interpreter test_exec : String)
      (timeout post_wait : Int)
  | powerControl (name sutAlias eventType : String) (wait : Bool)
deriving DecidableEq, Repr

/-- The `name` attribute of a queued unit (`_Test._name`; installers are
named with an _Installer suffix by `_Installer.__init__`). -/
def TestUnit.nameOf : TestUnit → String
  | .prep p => p.resource_id
  | .basicInstaller toolName _ _ => toolName ++ "_Installer"
  | .msiInstaller toolName _ _ => toolName ++ "_Installer"
  | .step desc _ _ _ _ _ _ => desc
  | .powerControl name _ _ _ => name

/-- Python attribute lookup of `test.timeout` as performed by
`TestCase.execute`.  Only `TestPrep` and `TestStep` declare a `timeout`
property; `_Installer` stores `self._timeout` and `PowerControl` stores
`self._command_timeout` but neither exposes a `timeout` attribute, so the
lookup raises `AttributeError` (`none`). -/
def TestUnit.timeoutAttr : TestUnit → Option Int
  | .prep p => some p.timeout
  | .basicInstaller _ _ _ => none
  | .msiInstaller _ _ _ => none
  | .step _ _ _ _ _ timeout _ => some timeout
  | .powerControl _ _ _ _ => none

/-- A `TestCase`: registered resources (`_test_preps`, keyed by
`resource_id`), the execution queue (`_tests`), the bound aliases
(`_sut_aliases`), and the `_TestContainer` status/message fields. -/
structure TestCase where
  name : String
  test_preps : List (String × TestPrepU)
  tests : List TestUnit
  sut_aliases : List String
  status : Status
  message : String
deriving DecidableEq, Repr

/-- Embeds `TestCase.__init__`. -/
def TestCase.new (name : String) : TestCase :=
  { name := name, test_preps := [], tests := [], sut_aliases := [],
    status := .notRan, message := "" }

/-! ### Exception messages composed by TestCase -/

/-- The busy message of `_checkout_resources`. -/
def busyMsg (rid tcName : String) : String :=
  "The \"" ++ rid ++ "\" resource is busy and cannot be checked-out by the \""
    ++ tcName ++ "\" test case!"

/-- The invalid-timeout message used by both `_checkout_resources` and
`_update_resource_timeouts` (note both format `test_prep.timeout`). -/
def timeoutInvalidMsg (t : Int) (rid tcName : String) : String :=
  "The timeout \"" ++ toString t ++ "\" is not valid for resource \"" ++ rid
    ++ "\" in the \"" ++ tcName ++ "\" test case!"

/-- The re-wrapped `CoreError` message of `_update_resource_timeouts`. -/
def notCheckedOutMsg (rid tcName : String) : String :=
  "The \"" ++ rid ++ "\" resource is not currently checked out by the \""
    ++ tcName ++ "\" test case!"

/-- The message composed by the `except Failure` arm of `TestCase.execute`. -/
def unitFailMsg (testName tcName m : String) : String :=
  "The \"" ++ testName ++ "\" test in the test case \"" ++ tcName
    ++ "\" failed with the message: \"" ++ m ++ "\""

/-- The message composed by the `except FatalError` arm of `TestCase.execute`. -/
def unitFatalMsg (testName tcName m : String) : String :=
  "The \"" ++ testName ++ "\" test in the test case \"" ++ tcName
    ++ "\" encountered the fatal error: \"" ++ m ++ "\""

/-! ### TestCase execution -/

/-- Embeds `TestCase._checkin_resources` on one resource: `test_prep.sut.checkin()`
(absent aliases cannot occur in intended states and are a no-op). -/
def checkinOne (now : Int) (m : SutMap) (alias' : String) : SutMap :=
  match lookupSut m alias' with
  | none => m
  | some s => setSut m alias' (s.checkin now).1

/-- Embeds `TestCase._checkin_resources`: checkin every registered resource. -/
def checkinResources (preps : List (String × TestPrepU)) (m : SutMap)
    (now : Int) : SutMap :=
  preps.foldl (fun acc pr => checkinOne now acc pr.2.sut_alias) m

/-- The loop of `TestCase._checkout_resources`: checkout each registered
resource with the timeout of its prep; on the first busy `CoreError` or range
`FatalError`, checkin ALL registered resources (`allPreps`) and raise a
`FatalError` whose message is returned.  VM provisioning (`machine.setup()`)
is modelled as succeeding at this level. -/
def checkoutGo (tcName : String) (allPreps : List (String × TestPrepU))
    (now : Int) : List (String × TestPrepU) → SutMap → SutMap × Option String
  | [], m => (m, none)
  | (rid, p) :: rest, m =>
    match lookupSut m p.sut_alias with
    | none => checkoutGo tcName allPreps now rest m
    | some s =>
      match (s.checkout now p.timeout false).err with
      | some .busy =>
        (checkinResources allPreps m now, some (busyMsg rid tcName))
      | some .rangeFatal =>
        (checkinResources allPreps m now,
         some (timeoutInvalidMsg p.timeout rid tcName))
      | none =>
        checkoutGo tcName allPreps now rest
          (setSut m p.sut_alias (s.checkout now p.timeout false).state)

/-- Embeds `TestCase._checkout_resources`. -/
def checkoutResources (tcName : String) (preps : List (String × TestPrepU))
    (m : SutMap) (now : Int) : SutMap × Option String :=
  checkoutGo tcName preps now preps m

/-- An exception escaping `TestCase._update_resource_timeouts`: the
re-wrapped `CoreError` (not-checked-out) or the re-wrapped range
`FatalError`. -/
inductive UpdErr
  | core (msg : String)
  | fatal (msg : String)
deriving DecidableEq, Repr

/-- The loop of `TestCase._update_resource_timeouts`: update every
lock of every registered resource with the current unit `timeout`; the first
exception is re-raised with a composed message (resources updated before it
keep their new expiration). -/
def updateGo (tcName : String) (now timeout : Int) :
    List (String × TestPrepU) → SutMap → SutMap × Option UpdErr
  | [], m => (m, none)
  | (rid, p) :: rest, m =>
    match lookupSut m p.sut_alias with
    | none => updateGo tcName now timeout rest m
    | some s =>
      match s.update_lock_timeout now timeout with
      | .error .rangeFatal =>
        (m, some (.fatal (timeoutInvalidMsg p.timeout rid tcName)))
      | .error .notCheckedOut =>
        (m, some (.core (notCheckedOutMsg rid tcName)))
      | .ok s' => updateGo tcName now timeout rest (setSut m p.sut_alias s')

/-- Embeds `TestCase._update_resource_timeouts`. -/
def updateResourceTimeouts (tcName : String) (preps : List (String × TestPrepU))
    (m : SutMap) (now timeout : Int) : SutMap × Option UpdErr :=
  updateGo tcName now timeout preps m

/-- How the `execute()` of one queued unit exits: returns normally, raises
`Failure`, or raises `FatalError` (with the message of the exception). -/
inductive UnitOutcome
  | pass
  | failure (msg : String)
  | fatal (msg : String)
deriving DecidableEq, Repr

/-- How `TestCase.execute` itself exits: returns, raises `Failure`, raises
`FatalError`, or lets a non-core exception escape uncaught — a `CoreError`
re-raised by `_update_resource_timeouts` (no handler for it in `execute`),
or the `AttributeError` from `test.timeout` on a unit without that
property. -/
inductive ExecResult
  | normal
  | failureExn (msg : String)
  | fatalExn (msg : String)
  | rawCoreError (msg : String)
  | rawAttrError
deriving DecidableEq, Repr

/-- The mutable data of a running `TestCase.execute` call: the shared SUT
heap, `_status`, `_message`, and the (absolute) indices of queue units whose
`execute()` was invoked. -/
structure RunState where
  suts : SutMap
  status : Status
  message : String
  executed : List Nat
deriving DecidableEq, Repr

/-- The run-phase loop of `TestCase.execute` over the remaining queue
(`i` is the absolute index of the head unit), followed by the completion
code (when the recorded status is Fail: checkin all and raise `Failure`;
otherwise set status Pass and checkin all).  Each iteration reads `test.timeout`
(`AttributeError` escapes uncaught), calls `_update_resource_timeouts`
(its `FatalError` is caught: checkin all, status Fatal, re-raise; its
`CoreError` has no handler and escapes raw), then `test.execute()`
(`Failure` caught: record Fail and continue; `FatalError` caught: checkin
all, status Fatal, re-raise). -/
def runTests (tcName : String) (preps : List (String × TestPrepU))
    (outcomes : Nat → UnitOutcome) (now : Int) :
    List TestUnit → Nat → RunState → RunState × ExecResult
  | [], _, st =>
    if st.status = .fail then
      ({ st with suts := checkinResources preps st.suts now },
       .failureExn st.message)
    else
      ({ st with suts := checkinResources preps st.suts now, status := .pass },
       .normal)
  | t :: rest, i, st =>
    match t.timeoutAttr with
    | none => (st, .rawAttrError)
    | some tmo =>
      match (updateResourceTimeouts tcName preps st.suts now tmo).2 with
      | some (.core msg) =>
        ({ st with suts := (updateResourceTimeouts tcName preps st.suts now tmo).1 },
         .rawCoreError msg)
      | some (.fatal msg) =>
        ({ suts := checkinResources preps
             (updateResourceTimeouts tcName preps st.suts now tmo).1 now,
           status := .fatal,
           message := unitFatalMsg t.nameOf tcName msg,
           executed := st.executed },
         .fatalExn (unitFatalMsg t.nameOf tcName msg))
      | none =>
        match outcomes i with
        | .pass =>
          runTests tcName preps outcomes now rest (i + 1)
            { st with suts := (updateResourceTimeouts tcName preps st.suts now tmo).1,
                      executed := st.executed ++ [i] }
        | .failure m =>
          runTests tcName preps outcomes now rest (i + 1)
            { suts := (updateResourceTimeouts tcName preps st.suts now tmo).1,
              status := .fail,
              message := unitFailMsg t.nameOf tcName m,
              executed := st.executed ++ [i] }
        | .fatal m =>
          ({ suts := checkinResources preps
               (updateResourceTimeouts tcName preps st.suts now tmo).1 now,
             status := .fatal,
             message := unitFatalMsg t.nameOf tcName m,
             executed := st.executed ++ [i] },
           .fatalExn (unitFatalMsg t.nameOf tcName m))

/-- Embeds `TestCase.execute`: set status Running, run the checkout phase (a
failure there leaves status Fatal and raises `FatalError` with the composed
message), then the run phase over the queue. -/
def testCaseExecute (tc : TestCase) (suts : SutMap) (now : Int)
    (outcomes : Nat → UnitOutcome) : RunState × ExecResult :=
  match (checkoutResources tc.name tc.test_preps suts now).2 with
  | some msg =>
    ({ suts := (checkoutResources tc.name tc.test_preps suts now).1,
       status := .fatal, message := msg, executed := [] },
     .fatalExn msg)
  | none =>
    runTests tc.name tc.test_preps outcomes now tc.tests 0
      { suts := (checkoutResources tc.name tc.test_preps suts now).1,
        status := .running, message := tc.message, executed := [] }

/-- Whether the per-unit `test.timeout` read in `TestCase.execute` yields a value
the refresh accepts (attribute present and in `(0, MAX_CHECKOUT_TIME]`). -/
def hasValidTimeout (u : TestUnit) : Bool :=
  match u.timeoutAttr with
  | some t => decide (0 < t ∧ t ≤ maxCheckoutTime)
  | none => false

/-- Invariant: the SUT of every registered resource that is present in the
heap is currently checked out. -/
def prepInv (preps : List (String × TestPrepU)) (m : SutMap) : Prop :=
  ∀ rid p, (rid, p) ∈ preps →
    ∀ s, lookupSut m p.sut_alias = some s → s.in_use = true

/-- The SUT of every registered resource that is present in the heap is
checked in (`in_use = false`) — the "no machine left locked" postcondition. -/
def allCheckedIn (preps : List (String × TestPrepU)) (m : SutMap) : Prop :=
  ∀ rid p, (rid, p) ∈ preps →
    ∀ s, lookupSut m p.sut_alias = some s → s.in_use = false

/-! ### TestPlan / TestRun aggregation

`TestPlan.execute` and `TestRun.execute` have the identical sequencer shape;
the `execute()` exit of each child is abstracted as a `ChildOutcome` (a `TestCase`
raising `Failure`/`FatalError`, or returning). -/

/-- How the `execute()` of a child container exits. -/
inductive ChildOutcome
  | ok
  | failure (msg : String)
  | fatalErr (msg : String)
deriving DecidableEq, Repr

/-- How `TestPlan.execute`/`TestRun.execute` itself exits. -/
inductive ContRes
  | normal
  | failureExn (msg : String)
  | fatalExn (msg : String)
deriving DecidableEq, Repr

/-- Observable result of a sequencer run: final `_status`, final `_message`,
how it exited, and the number of children whose `execute()` was invoked. -/
structure SeqOut where
  status : Status
  message : String
  result : ContRes
  executed : Nat
deriving DecidableEq, Repr

/-- The failed-with-message text composed by the `except Failure` arm of
both sequencers, naming the child and the container. -/
def childFailMsg (childNoun contNoun contName childName m : String) : String :=
  "The \"" ++ childName ++ "\" " ++ childNoun ++ " in the " ++ contNoun
    ++ " \"" ++ contName ++ "\" failed with the message: \"" ++ m ++ "\""

/-- The encountered-the-fatal-error text composed by the `except FatalError`
arm of both sequencers, naming the child and the container. -/
def childFatalMsg (childNoun contNoun contName childName m : String) : String :=
  "The \"" ++ childName ++ "\" " ++ childNoun ++ " in the " ++ contNoun
    ++ " \"" ++ contName ++ "\" encountered the fatal error: \"" ++ m ++ "\""

/-- The shared sequencer loop of `TestPlan.execute` and `TestRun.execute`:
iterate children in order; `except Failure`: status Fail, composed message,
continue; `except FatalError`: status Fail, composed message, re-raise
`FatalError`; after the loop raise `Failure` if status is Fail, else set
status Pass. -/
def seqGo (childNoun contNoun contName : String) :
    List (String × ChildOutcome) → Status → String → Nat → SeqOut
  | [], st, msg, n =>
    if st = .fail then ⟨.fail, msg, .failureExn msg, n⟩
    else ⟨.pass, msg, .normal, n⟩
  | (childName, oc) :: rest, st, msg, n =>
    match oc with
    | .ok => seqGo childNoun contNoun contName rest st msg (n + 1)
    | .failure m =>
      seqGo childNoun contNoun contName rest .fail
        (childFailMsg childNoun contNoun contName childName m) (n + 1)
    | .fatalErr m =>
      ⟨.fail, childFatalMsg childNoun contNoun contName childName m,
       .fatalExn (childFatalMsg childNoun contNoun contName childName m), n + 1⟩

/-- Embeds `TestPlan.execute` over its ordered test cases (status starts Running,
message starts empty). -/
def testPlanExecute (name : String) (children : List (String × ChildOutcome)) :
    SeqOut :=
  seqGo "test case" "test plan" name children .running "" 0

/-- Embeds `TestRun.execute` over its ordered test plans. -/
def testRunExecute (name : String) (children : List (String × ChildOutcome)) :
    SeqOut :=
  seqGo "test plan" "test run" name children .running "" 0

/-! ### Installers

`_Installer.execute` runs `_init_staf_handle`, `_setup_results`, `_stage`,
`_install`, `_get_remote_results`; a `CoreError` from any of them sets status
Fatal and, after handle cleanup, raises `FatalError`.  `BasicInstaller.execute`
reaches that body through `super(BasicInstaller, self)`.  `MSIInstaller.execute`
also calls `super(BasicInstaller, self).execute()`, but `MSIInstaller` is not a
subclass of `BasicInstaller`, so in Python that `super` call raises
`TypeError` before any of the body runs. -/

/-- The remote operations performed by `_Installer.execute`, in body order
(the STAF handle bracket is modelled as succeeding). -/
inductive InstOp
  | setupResults
  | stage
  | install
  | getResults
deriving DecidableEq, Repr

/-- The exception (if any) escaping the `execute()` of an installer. -/
inductive InstExn
  | fatalError (msg : String)
  | typeError
deriving DecidableEq, Repr

/-- Observable result of an installer `execute()`: final `_status`, the
remote operations attempted in order, and the escaping exception. -/
structure InstExec where
  status : Status
  attempted : List InstOp
  raised : Option InstExn
deriving DecidableEq, Repr

/-- Run the operations of the body in order until the first `CoreError`
(`beh op = some msg` means `op` raised `CoreError(msg)`). -/
def runOps (beh : InstOp → Option String) :
    List InstOp → List InstOp × Option String
  | [] => ([], none)
  | op :: rest =>
    match beh op with
    | some m => ([op], some m)
    | none =>
      let pr := runOps beh rest
      (op :: pr.1, pr.2)

/-- The try/except/finally body of `_Installer.execute`: status Running; on
success of all operations status Pass; on a `CoreError` status Fatal and the
message recorded; finally, if status is Fatal, raise
`FatalError(self._message)`. -/
def installerBody (beh : InstOp → Option String) : InstExec :=
  let pr := runOps beh [.setupResults, .stage, .install, .getResults]
  match pr.2 with
  | some m => ⟨.fatal, pr.1, some (.fatalError m)⟩
  | none => ⟨.pass, pr.1, none⟩

/-- The concrete installer classes (both direct subclasses of
`_Installer`). -/
inductive InstallerClass
  | basic
  | msi
deriving DecidableEq, Repr

/-- Whether an instance of `cls` is an instance of `BasicInstaller` — the
check that the Python `super(BasicInstaller, self)` performs on `self`. -/
def isInstanceOfBasicInstaller : InstallerClass → Bool
  | .basic => true
  | .msi => false

/-- Embeds `BasicInstaller.execute`: `super(BasicInstaller, self).execute()` with
`self` a `BasicInstaller`; the `super` check passes and the `_Installer`
body runs. -/
def basicInstallerExecute (beh : InstOp → Option String) : InstExec :=
  if isInstanceOfBasicInstaller .basic then installerBody beh
  else ⟨.notRan, [], some .typeError⟩

/-- Embeds `MSIInstaller.execute`: the source also says
`super(BasicInstaller, self).execute()`, but here `self` is an
`MSIInstaller`, which is not an instance of `BasicInstaller`, so the `super`
call raises `TypeError` before the body runs (status still `NotRan`). -/
def msiInstallerExecute (beh : InstOp → Option String) : InstExec :=
  if isInstanceOfBasicInstaller .msi then installerBody beh
  else ⟨.notRan, [], some .typeError⟩

/-! ### TestCase construction API -/

/-- The fields of a `Tool`/`Build` that the builder API inspects. -/
structure Tool where
  name : String
  install_type : String
deriving DecidableEq, Repr

/-- Embeds `TestCase._add_power_event`. -/
def addPowerEvent (tc : TestCase) (name sutAlias eventType : String)
    (wait : Bool) : TestCase :=
  { tc with tests :=
      tc.tests ++ [.powerControl (name ++ "_PowerControl") sutAlias eventType wait] }

/-- Embeds `TestCase.add_test_prep(resource_id, sut, checkpoint, post_wait,
timeout, restart, restart_wait)`: rejects a duplicate `resource_id` or an
already-bound SUT alias, appends the `TestPrep` to both the resource map and
the queue, and appends a restart `PowerControl` if requested. -/
def addTestPrep (tc : TestCase) (resource_id sutAlias checkpoint : String)
    (post_wait timeout : Int) (restart restart_wait : Bool) :
    Except String TestCase :=
  if tc.test_preps.any (fun pr => pr.1 = resource_id) then
    .error ("The \"" ++ resource_id
      ++ "\" resource_id specified for TestPrep in TestCase \"" ++ tc.name
      ++ "\" already in use!")
  else if tc.sut_aliases.contains sutAlias then
    .error ("The alias \"" ++ sutAlias ++ "\" referenced by resource_id \""
      ++ resource_id ++ "\" for the TestPrep in TestCase \"" ++ tc.name
      ++ "\" is already in use!")
  else
    let p : TestPrepU :=
      ⟨resource_id, sutAlias, timeout, post_wait, checkpoint⟩
    let tc1 := { tc with
      sut_aliases := tc.sut_aliases ++ [sutAlias],
      test_preps := tc.test_preps ++ [(resource_id, p)],
      tests := tc.tests ++ [.prep p] }
    .ok (if restart then addPowerEvent tc1 resource_id sutAlias "restart" restart_wait
         else tc1)

/-- Embeds `TestCase.add_tool(sut, tool, timeout)`: dispatch on
`tool.install_type` (`basic_install` / `msi_install` / `no_install`);
anything else is a construction-time `CoreError`. -/
def addTool (tc : TestCase) (sutAlias : String) (tool : Tool) (timeout : Int) :
    Except String TestCase :=
  if tool.install_type = "basic_install" then
    .ok { tc with tests := tc.tests ++ [.basicInstaller tool.name sutAlias timeout] }
  else if tool.install_type = "msi_install" then
    .ok { tc with tests := tc.tests ++ [.msiInstaller tool.name sutAlias timeout] }
  else if tool.install_type = "no_install" then
    .ok tc
  else
    .error ("The install_type \"" ++ tool.install_type ++ "\" for tool \""
      ++ tool.name ++ "\" is unsupported!")

/-- Embeds `TestCase.add_test_step(desc, resource_id, ...)`: the `resource_id`
must already be registered; the step targets the SUT of that resource; a
restart `PowerControl` if requested. -/
def addTestStep (tc : TestCase)
    (desc resource_id test_directory interpreter test_exec : String)
    (timeout post_wait : Int) (restart restart_wait : Bool) :
    Except String TestCase :=
  match (tc.test_preps.find? (fun pr => pr.1 = resource_id)) with
  | none =>
    .error ("The \"" ++ resource_id ++ "\" resource_id specified for TestStep \""
      ++ desc ++ "\" in TestCase \"" ++ tc.name ++ "\" is not valid!")
  | some pr =>
    let tc1 := { tc with tests := tc.tests ++
      [.step desc pr.2.sut_alias test_directory interpreter test_exec timeout post_wait] }
    .ok (if restart then addPowerEvent tc1 desc pr.2.sut_alias "restart" restart_wait
         else tc1)

/-! ### Concrete scenarios

Fixtures used to evaluate the model at concrete inputs: the P4-style
busy-checkout scenario, small queues for the Fail/Fatal propagation
scenarios, and the Smoke end-to-end test case of the spec. -/

/-- Three registered resources on aliases A/B/C with checkout timeout 600. -/
def busyCaseTC : TestCase :=
  { name := "TC1",
    test_preps := [("r1", ⟨"r1", "A", 600, 5, ""⟩),
                   ("r2", ⟨"r2", "B", 600, 5, ""⟩),
                   ("r3", ⟨"r3", "C", 600, 5, ""⟩)],
    tests := [.prep ⟨"r1", "A", 600, 5, ""⟩],
    sut_aliases := ["A", "B", "C"], status := .notRan, message := "" }

/-- Heap where resource B is already held with an unexpired lock. -/
def busyCaseSuts : SutMap :=
  [("A", ⟨false, 0⟩), ("B", ⟨true, 100⟩), ("C", ⟨false, 0⟩)]

/-- Two resources and a four-unit queue (prep then three steps). -/
def fatalCaseTC : TestCase :=
  { name := "TC2",
    test_preps := [("r1", ⟨"r1", "A", 600, 5, ""⟩),
                   ("r2", ⟨"r2", "B", 700, 5, ""⟩)],
    tests := [.prep ⟨"r1", "A", 600, 5, ""⟩,
              .step "s1" "A" "d1" "" "a.sh" 120 2,
              .step "s2" "B" "d2" "" "b.sh" 120 2,
              .step "s3" "B" "d3" "" "c.sh" 120 2],
    sut_aliases := ["A", "B"], status := .notRan, message := "" }

/-- Heap for the Fatal/Fail propagation scenarios: all resources free. -/
def fatalCaseSuts : SutMap := [("A", ⟨false, 0⟩), ("B", ⟨false, 0⟩)]

/-- Unit 1 raises `FatalError`, everything before it passes. -/
def fatalCaseOutcomes : Nat → UnitOutcome :=
  fun i => if i = 1 then .fatal "lost VM" else .pass

/-- One resource and a three-unit queue (prep, failing step, passing
step). -/
def failCaseTC : TestCase :=
  { name := "TC3",
    test_preps := [("r1", ⟨"r1", "A", 600, 5, ""⟩)],
    tests := [.prep ⟨"r1", "A", 600, 5, ""⟩,
              .step "s1" "A" "d1" "" "a.sh" 120 2,
              .step "s2" "A" "d2" "" "b.sh" 120 2],
    sut_aliases := ["A"], status := .notRan, message := "" }

/-- Unit 1 raises `Failure`, the others pass. -/
def failCaseOutcomes : Nat → UnitOutcome :=
  fun i => if i = 1 then .failure "bad exit" else .pass

/-- A queue where the timeout of the second unit is out of range (refresh must
convert the range `FatalError`). -/
def refreshCaseTC : TestCase :=
  { name := "TC4",
    test_preps := [("r1", ⟨"r1", "A", 600, 5, ""⟩)],
    tests := [.prep ⟨"r1", "A", 600, 5, ""⟩,
              .step "s1" "A" "d1" "" "a.sh" 9999 2],
    sut_aliases := ["A"], status := .notRan, message := "" }

/-- The tool of the E2E scenario in the spec. -/
def smokeTool : Tool := ⟨"Agent", "basic_install"⟩

/-- The E2E "Smoke" test case built through the construction API. -/
def smokeBuild : Except String TestCase :=
  (addTestPrep (TestCase.new "Smoke") "r1" "VM-A" "Clean" 5 600 false false).bind
    fun tc1 => (addTool tc1 "VM-A" smokeTool 300).bind
      fun tc2 => addTestStep tc2 "Run" "r1" "smoke" "" "run.sh" 120 2 false false

/-- The `TestPrep` registered by the Smoke scenario. -/
def smokePrep : TestPrepU := ⟨"r1", "VM-A", 600, 5, "Clean"⟩

/-- The expected result of `smokeBuild`: queue
`[TestPrep(r1), BasicInstaller(Agent), TestStep(Run)]`. -/
def smokeTC : TestCase :=
  { name := "Smoke",
    test_preps := [("r1", smokePrep)],
    tests := [.prep smokePrep,
              .basicInstaller "Agent" "VM-A" 300,
              .step "Run" "VM-A" "smoke" "" "run.sh" 120 2],
    sut_aliases := ["VM-A"], status := .notRan, message := "" }

/-- The heap of the Smoke scenario: one free SUT "VM-A". -/
def smokeSuts : SutMap := [("VM-A", ⟨false, 0⟩)]

/-! ## Lemmas about the SUT heap -/

/-- Master lookup/update lemma for the first-match association list. -/
theorem lookupSut_setSut (m : SutMap) (a b : String) (s' : SutState) :
    lookupSut (setSut m a s') b =
      if b = a then (if (lookupSut m a).isSome then some s' else none)
      else lookupSut m b := by
  induction m with
  | nil => simp [setSut, lookupSut]
  | cons hd tl ih =>
    obtain ⟨k, v⟩ := hd
    by_cases hka : k = a
    · subst hka
      by_cases hkb : k = b
      · subst hkb
        simp [setSut, lookupSut]
      · have hbk : ¬b = k := fun h => hkb h.symm
        simp [setSut, lookupSut, hkb, hbk]
    · by_cases hkb : k = b
      · subst hkb
        have hba : ¬k = a := hka
        simp [setSut, lookupSut, hka, hba]
      · simp [setSut, lookupSut, hka, hkb, ih]

/-- Updating `setSut` on an absent key is the identity. -/
theorem setSut_absent (m : SutMap) (a : String) (s' : SutState)
    (h : lookupSut m a = none) : setSut m a s' = m := by
  induction m with
  | nil => rfl
  | cons hd tl ih =>
    obtain ⟨k, v⟩ := hd
    by_cases hka : k = a
    · subst hka
      simp [lookupSut] at h
    · simp [lookupSut, hka] at h
      simp [setSut, hka, ih h]

/-- A state transformer `f` is "checked in" at alias `a` after `checkinOne`
if it was, or if `a` is the alias checked in. This helper: `checkinOne`
never turns `in_use` on. -/
theorem checkinOne_preserves_false (now : Int) (m : SutMap) (alias' a : String)
    (h : ∀ s, lookupSut m a = some s → s.in_use = false) :
    ∀ s', lookupSut (checkinOne now m alias') a = some s' → s'.in_use = false := by
  intro s' hs'
  unfold checkinOne at hs'
  cases hm : lookupSut m alias' with
  | none =>
    rw [hm] at hs'
    exact h s' hs'
  | some s =>
    rw [hm] at hs'
    rw [lookupSut_setSut] at hs'
    by_cases haa : a = alias'
    · subst haa
      rw [if_pos rfl, hm] at hs'
      simp at hs'
      subst hs'
      unfold SutState.checkin
      by_cases hu : s.in_use <;> simp [hu]
    · rw [if_neg haa] at hs'
      exact h s' hs'

/-- Applying `checkinOne` on alias `a` leaves every present state at `a` checked
in. -/
theorem checkinOne_self_false (now : Int) (m : SutMap) (a : String) :
    ∀ s', lookupSut (checkinOne now m a) a = some s' → s'.in_use = false := by
  intro s' hs'
  unfold checkinOne at hs'
  cases hm : lookupSut m a with
  | none =>
    rw [hm] at hs'
    rw [hm] at hs'
    simp at hs'
  | some s =>
    rw [hm] at hs'
    rw [lookupSut_setSut, if_pos rfl, hm] at hs'
    simp at hs'
    subst hs'
    unfold SutState.checkin
    by_cases hu : s.in_use <;> simp [hu]

/-- After `_checkin_resources`, every state still false stays false. -/
theorem checkinResources_preserves_false (preps : List (String × TestPrepU))
    (now : Int) :
    ∀ (m : SutMap) (a : String),
      (∀ s, lookupSut m a = some s → s.in_use = false) →
      ∀ s', lookupSut (checkinResources preps m now) a = some s' →
        s'.in_use = false := by
  induction preps with
  | nil =>
    intro m a h s' hs'
    exact h s' hs'
  | cons hd tl ih =>
    intro m a h s' hs'
    unfold checkinResources at hs'
    simp only [List.foldl_cons] at hs'
    exact ih (checkinOne now m hd.2.sut_alias) a
      (checkinOne_preserves_false now m hd.2.sut_alias a h) s' hs'

/-- After `_checkin_resources`, the SUT of every registered resource is
checked in (`in_use = false`), whatever its prior state. -/
theorem checkinResources_all_false (preps : List (String × TestPrepU))
    (now : Int) :
    ∀ (m : SutMap) (rid : String) (p : TestPrepU),
      (rid, p) ∈ preps →
      ∀ s', lookupSut (checkinResources preps m now) p.sut_alias = some s' →
        s'.in_use = false := by
  induction preps with
  | nil =>
    intro m rid p hmem
    simp at hmem
  | cons hd tl ih =>
    intro m rid p hmem s' hs'
    unfold checkinResources at hs'
    simp only [List.foldl_cons] at hs'
    rcases List.mem_cons.mp hmem with hh | ht
    · have hp : hd.2.sut_alias = p.sut_alias := by rw [← hh]
      rw [← hp] at hs'
      exact checkinResources_preserves_false tl now _ _
        (checkinOne_self_false now m hd.2.sut_alias) s' hs'
    · exact ih (checkinOne now m hd.2.sut_alias) rid p ht s' hs'

/-! ## Lemmas about the checkout phase -/

/-- If the checkout phase raises, the error branch has already checked in
every registered resource: all of them end with `in_use = false`. -/
theorem checkoutGo_err_allfalse (tcName : String)
    (allPreps : List (String × TestPrepU)) (now : Int) :
    ∀ (l : List (String × TestPrepU)) (m m' : SutMap) (msg : String),
      checkoutGo tcName allPreps now l m = (m', some msg) →
      ∀ rid p, (rid, p) ∈ allPreps →
        ∀ s', lookupSut m' p.sut_alias = some s' → s'.in_use = false := by
  intro l
  induction l with
  | nil =>
    intro m m' msg h
    unfold checkoutGo at h
    simp at h
  | cons hd tl ih =>
    intro m m' msg h rid p hmem s' hs'
    obtain ⟨hrid, hp⟩ := hd
    unfold checkoutGo at h
    split at h
    · exact ih m m' msg h rid p hmem s' hs'
    · split at h
      · simp at h
        obtain ⟨hm', _⟩ := h
        subst hm'
        exact checkinResources_all_false allPreps now m rid p hmem s' hs'
      · simp at h
        obtain ⟨hm', _⟩ := h
        subst hm'
        exact checkinResources_all_false allPreps now m rid p hmem s' hs'
      · exact ih _ m' msg h rid p hmem s' hs'

/-- A successful `checkout` leaves the state checked out. -/
theorem checkout_ok_in_use (s : SutState) (now t : Int) (sf : Bool)
    (h : (s.checkout now t sf).err = none) :
    (s.checkout now t sf).state.in_use = true := by
  unfold SutState.checkout at *
  by_cases h1 : ¬(0 < t ∧ t ≤ maxCheckoutTime)
  · simp [h1] at h
  · by_cases h2 : s.in_use ∧ now < s.lock_expiration
    · simp [h1, h2] at h
    · simp [h1, h2]

/-- If the checkout phase succeeds, every alias that was "present implies
checked out" at entry — or that belongs to one of the remaining registered
resources — is "present implies checked out" at exit. -/
theorem checkoutGo_ok_inv (tcName : String)
    (allPreps : List (String × TestPrepU)) (now : Int) :
    ∀ (l : List (String × TestPrepU)) (m m' : SutMap) (a : String),
      checkoutGo tcName allPreps now l m = (m', none) →
      ((∀ s, lookupSut m a = some s → s.in_use = true) ∨
        (∃ rid p, (rid, p) ∈ l ∧ p.sut_alias = a)) →
      ∀ s', lookupSut m' a = some s' → s'.in_use = true := by
  intro l
  induction l with
  | nil =>
    intro m m' a h hping s' hs'
    unfold checkoutGo at h
    have hm : m = m' := congrArg Prod.fst h
    subst hm
    rcases hping with hin | hmem
    · exact hin s' hs'
    · simp at hmem
  | cons hd tl ih =>
    intro m m' a h hping s' hs'
    obtain ⟨hrid, hp⟩ := hd
    unfold checkoutGo at h
    split at h
    next _x hm =>
      refine ih m m' a h ?_ s' hs'
      rcases hping with hin | hmem
      · exact Or.inl hin
      · obtain ⟨rid, p, hmem', ha⟩ := hmem
        rcases List.mem_cons.mp hmem' with hh | ht
        · left
          intro s hls
          exfalso
          have hpa : hp.sut_alias = a := by
            have : p = hp := (Prod.mk.injEq .. ▸ hh).2
            rw [← this, ha]
          rw [hpa, hls] at hm
          exact Option.noConfusion hm
        · exact Or.inr ⟨rid, p, ht, ha⟩
    next _x s hm =>
      split at h
      · simp at h
      · simp at h
      case _ he =>
        refine ih _ m' a h ?_ s' hs'
        by_cases haa : hp.sut_alias = a
        · left
          intro s2 hls2
          rw [lookupSut_setSut, if_pos haa.symm, hm] at hls2
          simp at hls2
          rw [← hls2]
          exact checkout_ok_in_use s now hp.timeout false he
        · have haa' : ¬a = hp.sut_alias := fun hh => haa hh.symm
          rcases hping with hin | hmem
          · left
            intro s2 hls2
            rw [lookupSut_setSut, if_neg haa'] at hls2
            exact hin s2 hls2
          · obtain ⟨rid, p, hmem', ha⟩ := hmem
            rcases List.mem_cons.mp hmem' with hh | ht
            · exfalso
              have : p = hp := (Prod.mk.injEq .. ▸ hh).2
              rw [← this, ha] at haa
              exact haa rfl
            · exact Or.inr ⟨rid, p, ht, ha⟩

/-- After a successful checkout phase, the SUT of every registered resource
is checked out. -/
theorem checkoutResources_ok_inv (tcName : String)
    (preps : List (String × TestPrepU)) (m m' : SutMap) (now : Int)
    (h : checkoutResources tcName preps m now = (m', none)) :
    prepInv preps m' := by
  intro rid p hmem s hs
  exact checkoutGo_ok_inv tcName preps now preps m m' p.sut_alias h
    (Or.inr ⟨rid, p, hmem, rfl⟩) s hs

/-! ## Lemmas about the per-unit lock refresh -/

/-- A successful `update_lock_timeout` keeps `in_use` unchanged. -/
theorem update_lock_timeout_ok_in_use (s s' : SutState) (now t : Int)
    (h : s.update_lock_timeout now t = .ok s') : s'.in_use = s.in_use := by
  unfold SutState.update_lock_timeout at h
  by_cases h1 : ¬(0 < t ∧ t ≤ maxCheckoutTime)
  · simp [h1] at h
  · by_cases h2 : ¬s.in_use
    · simp [h1, h2] at h
    · simp [h1, h2] at h
      rw [← h]

/-- The loop of `_update_resource_timeouts` never changes whether a SUT is checked out:
an alias whose present states were all checked out stays that way. -/
theorem updateGo_preserves_inuse (tcName : String) (now timeout : Int) :
    ∀ (l : List (String × TestPrepU)) (m : SutMap) (a : String),
      (∀ s, lookupSut m a = some s → s.in_use = true) →
      ∀ s', lookupSut (updateGo tcName now timeout l m).1 a = some s' →
        s'.in_use = true := by
  intro l
  induction l with
  | nil =>
    intro m a hin s' hs'
    unfold updateGo at hs'
    exact hin s' hs'
  | cons hd tl ih =>
    intro m a hin s' hs'
    obtain ⟨hrid, hp⟩ := hd
    unfold updateGo at hs'
    split at hs'
    · exact ih m a hin s' hs'
    next _x s hm =>
      split at hs'
      · exact hin s' hs'
      · exact hin s' hs'
      next s2 hupd =>
        refine ih _ a ?_ s' hs'
        intro s3 hls3
        by_cases haa : a = hp.sut_alias
        · rw [lookupSut_setSut, if_pos haa, hm] at hls3
          simp at hls3
          rw [← hls3, update_lock_timeout_ok_in_use s s2 now timeout hupd]
          exact hin s (by rw [haa]; exact hm)
        · rw [lookupSut_setSut, if_neg haa] at hls3
          exact hin s3 hls3

/-- Under the checked-out invariant, `_update_resource_timeouts` cannot
raise the not-checked-out `CoreError`. -/
theorem updateGo_no_core (tcName : String) (now timeout : Int) :
    ∀ (l : List (String × TestPrepU)) (m : SutMap),
      (∀ rid p, (rid, p) ∈ l →
        ∀ s, lookupSut m p.sut_alias = some s → s.in_use = true) →
      ∀ msg, (updateGo tcName now timeout l m).2 ≠ some (.core msg) := by
  intro l
  induction l with
  | nil =>
    intro m _hin msg
    unfold updateGo
    simp
  | cons hd tl ih =>
    intro m hin msg
    obtain ⟨hrid, hp⟩ := hd
    unfold updateGo
    split
    · exact ih m (fun rid p hmem => hin rid p (List.mem_cons_of_mem _ hmem)) msg
    next _x s hm =>
      have hsu : s.in_use = true :=
        hin hrid hp (List.mem_cons_self _ _) s hm
      split
      · simp
      next hupd =>
        exfalso
        unfold SutState.update_lock_timeout at hupd
        by_cases h1 : ¬(0 < timeout ∧ timeout ≤ maxCheckoutTime)
        · simp [h1] at hupd
        · simp [h1, hsu] at hupd
      next s2 hupd =>
        refine ih _ ?_ msg
        intro rid p hmem s3 hls3
        by_cases haa : p.sut_alias = hp.sut_alias
        · rw [lookupSut_setSut, if_pos haa, hm] at hls3
          simp at hls3
          rw [← hls3, update_lock_timeout_ok_in_use s s2 now timeout hupd]
          exact hsu
        · rw [lookupSut_setSut, if_neg haa] at hls3
          exact hin rid p (List.mem_cons_of_mem _ hmem) s3 hls3

/-- Under an in-range timeout and the checked-out invariant,
`_update_resource_timeouts` raises nothing at all. -/
theorem updateGo_ok (tcName : String) (now timeout : Int)
    (hrange : 0 < timeout ∧ timeout ≤ maxCheckoutTime) :
    ∀ (l : List (String × TestPrepU)) (m : SutMap),
      (∀ rid p, (rid, p) ∈ l →
        ∀ s, lookupSut m p.sut_alias = some s → s.in_use = true) →
      (updateGo tcName now timeout l m).2 = none := by
  intro l
  induction l with
  | nil =>
    intro m _hin
    unfold updateGo
    rfl
  | cons hd tl ih =>
    intro m hin
    obtain ⟨hrid, hp⟩ := hd
    unfold updateGo
    split
    · exact ih m (fun rid p hmem => hin rid p (List.mem_cons_of_mem _ hmem))
    next _x s hm =>
      have hsu : s.in_use = true :=
        hin hrid hp (List.mem_cons_self _ _) s hm
      split
      next hupd =>
        exfalso
        unfold SutState.update_lock_timeout at hupd
        simp [hrange, hsu] at hupd
      next hupd =>
        exfalso
        unfold SutState.update_lock_timeout at hupd
        simp [hrange, hsu] at hupd
      next s2 hupd =>
        refine ih _ ?_
        intro rid p hmem s3 hls3
        by_cases haa : p.sut_alias = hp.sut_alias
        · rw [lookupSut_setSut, if_pos haa, hm] at hls3
          simp at hls3
          rw [← hls3, update_lock_timeout_ok_in_use s s2 now timeout hupd]
          exact hsu
        · rw [lookupSut_setSut, if_neg haa] at hls3
          exact hin rid p (List.mem_cons_of_mem _ hmem) s3 hls3

/-! ## Lemmas about the run phase -/

/-- List bookkeeping: consuming one index then a shifted range is one longer
range. -/
theorem cons_range_shift (i k : Nat) :
    i :: (List.range k).map (fun j => i + 1 + j) =
      (List.range (k + 1)).map (fun j => i + j) := by
  induction k with
  | zero => simp [List.range_succ]
  | succ n ihn =>
    rw [List.range_succ, List.map_append, List.range_succ, List.map_append,
        ← List.cons_append, ihn]
    congr 1
    simp
    omega

/-- Appending one index then a shifted range extends the executed-list by a
range one longer. -/
theorem exec_append_shift (e : List Nat) (i k : Nat) :
    (e ++ [i]) ++ (List.range k).map (fun j => i + 1 + j) =
      e ++ (List.range (k + 1)).map (fun j => i + j) := by
  rw [List.append_assoc, List.singleton_append, cons_range_shift]

/-- A mapped range extended by its next element. -/
theorem map_range_append_last (i k : Nat) :
    ((List.range k).map (fun j => i + j)) ++ [i + k] =
      (List.range (k + 1)).map (fun j => i + j) := by
  rw [List.range_succ, List.map_append]
  rfl

/-- A successful per-unit refresh preserves the checked-out invariant. -/
theorem prepInv_update (tcName : String) (preps : List (String × TestPrepU))
    (m : SutMap) (now t : Int) (h : prepInv preps m) :
    prepInv preps (updateResourceTimeouts tcName preps m now t).1 := by
  intro rid p hmem s hs
  exact updateGo_preserves_inuse tcName now t preps m p.sut_alias
    (h rid p hmem) s hs

/-- One run-phase step on a passing unit. -/
theorem runTests_step_pass (tcName : String) (preps : List (String × TestPrepU))
    (outcomes : Nat → UnitOutcome) (now : Int) (u : TestUnit)
    (rest : List TestUnit) (i : Nat) (st : RunState) (t : Int)
    (ht : u.timeoutAttr = some t)
    (hupd : (updateResourceTimeouts tcName preps st.suts now t).2 = none)
    (ho : outcomes i = .pass) :
    runTests tcName preps outcomes now (u :: rest) i st =
      runTests tcName preps outcomes now rest (i + 1)
        { st with suts := (updateResourceTimeouts tcName preps st.suts now t).1,
                  executed := st.executed ++ [i] } := by
  simp only [runTests, ht, hupd, ho]

/-- One run-phase step on a unit raising `Failure`: record Fail and
continue. -/
theorem runTests_step_failure (tcName : String) (preps : List (String × TestPrepU))
    (outcomes : Nat → UnitOutcome) (now : Int) (u : TestUnit)
    (rest : List TestUnit) (i : Nat) (st : RunState) (t : Int) (m : String)
    (ht : u.timeoutAttr = some t)
    (hupd : (updateResourceTimeouts tcName preps st.suts now t).2 = none)
    (ho : outcomes i = .failure m) :
    runTests tcName preps outcomes now (u :: rest) i st =
      runTests tcName preps outcomes now rest (i + 1)
        { suts := (updateResourceTimeouts tcName preps st.suts now t).1,
          status := .fail, message := unitFailMsg u.nameOf tcName m,
          executed := st.executed ++ [i] } := by
  simp only [runTests, ht, hupd, ho]

/-- One run-phase step on a unit raising `FatalError`: checkin everything,
record Fatal, re-raise. -/
theorem runTests_step_fatal (tcName : String) (preps : List (String × TestPrepU))
    (outcomes : Nat → UnitOutcome) (now : Int) (u : TestUnit)
    (rest : List TestUnit) (i : Nat) (st : RunState) (t : Int) (m : String)
    (ht : u.timeoutAttr = some t)
    (hupd : (updateResourceTimeouts tcName preps st.suts now t).2 = none)
    (ho : outcomes i = .fatal m) :
    runTests tcName preps outcomes now (u :: rest) i st =
      ({ suts := checkinResources preps
           (updateResourceTimeouts tcName preps st.suts now t).1 now,
         status := .fatal,
         message := unitFatalMsg u.nameOf tcName m,
         executed := st.executed ++ [i] },
       .fatalExn (unitFatalMsg u.nameOf tcName m)) := by
  simp only [runTests, ht, hupd, ho]

/-- Under the checked-out invariant the run-phase loop can never let a raw
`CoreError` escape: the not-checked-out branch of the refresh is
unreachable. -/
theorem runTests_no_rawcore (tcName : String) (preps : List (String × TestPrepU))
    (outcomes : Nat → UnitOutcome) (now : Int) :
    ∀ (us : List TestUnit) (i : Nat) (st : RunState),
      prepInv preps st.suts →
      ∀ msg, (runTests tcName preps outcomes now us i st).2 ≠
        .rawCoreError msg := by
  intro us
  induction us with
  | nil =>
    intro i st _hinv msg
    unfold runTests
    by_cases hst : st.status = .fail <;> simp [hst]
  | cons u rest ih =>
    intro i st hinv msg
    cases ht : u.timeoutAttr with
    | none =>
      simp only [runTests, ht]
      simp
    | some t =>
      cases hupd : (updateResourceTimeouts tcName preps st.suts now t).2 with
      | none =>
        cases ho : outcomes i with
        | pass =>
          rw [runTests_step_pass tcName preps outcomes now u rest i st t ht hupd ho]
          exact ih (i + 1) _ (prepInv_update tcName preps st.suts now t hinv) msg
        | failure fm =>
          rw [runTests_step_failure tcName preps outcomes now u rest i st t fm ht hupd ho]
          exact ih (i + 1) _ (prepInv_update tcName preps st.suts now t hinv) msg
        | fatal fm =>
          rw [runTests_step_fatal tcName preps outcomes now u rest i st t fm ht hupd ho]
          simp
      | some e =>
        cases e with
        | core cmsg =>
          exact absurd hupd (updateGo_no_core tcName now t preps st.suts hinv cmsg)
        | fatal fmsg =>
          simp only [runTests, ht, hupd]
          simp

/-- Running a prefix of passing units just advances the loop: the status,
message and pending queue carry over, the executed list grows by the prefix
indices, and the checked-out invariant is maintained. -/
theorem runTests_pass_prefix (tcName : String) (preps : List (String × TestPrepU))
    (outcomes : Nat → UnitOutcome) (now : Int) :
    ∀ (us : List TestUnit) (k i : Nat) (st : RunState),
      prepInv preps st.suts →
      k ≤ us.length →
      (∀ j (hj : j < us.length), j < k →
        ∃ t, (us.get ⟨j, hj⟩).timeoutAttr = some t ∧
          0 < t ∧ t ≤ maxCheckoutTime) →
      (∀ j, j < k → outcomes (i + j) = .pass) →
      ∃ m1, prepInv preps m1 ∧
        runTests tcName preps outcomes now us i st =
          runTests tcName preps outcomes now (us.drop k) (i + k)
            { suts := m1, status := st.status, message := st.message,
              executed := st.executed ++ (List.range k).map (fun j => i + j) } := by
  intro us
  induction us with
  | nil =>
    intro k i st hinv hk _ _
    have hk0 : k = 0 := Nat.le_zero.mp hk
    subst hk0
    exact ⟨st.suts, hinv, by simp⟩
  | cons u rest ih =>
    intro k i st hinv hk htv hpass
    cases k with
    | zero => exact ⟨st.suts, hinv, by simp⟩
    | succ k' =>
      obtain ⟨t, ht, ht1, ht2⟩ :=
        htv 0 (Nat.succ_pos _) (Nat.succ_pos _)
      have hupd : (updateResourceTimeouts tcName preps st.suts now t).2 = none :=
        updateGo_ok tcName now t ⟨ht1, ht2⟩ preps st.suts hinv
      have ho : outcomes i = .pass := by
        have := hpass 0 (Nat.succ_pos _)
        simpa using this
      have hstep := runTests_step_pass tcName preps outcomes now u rest i st t ht hupd ho
      obtain ⟨m2, hm2inv, hrec⟩ :=
        ih k' (i + 1)
          { st with suts := (updateResourceTimeouts tcName preps st.suts now t).1,
                    executed := st.executed ++ [i] }
          (prepInv_update tcName preps st.suts now t hinv)
          (Nat.le_of_succ_le_succ hk)
          (fun j hj hjk =>
            htv (j + 1) (Nat.succ_lt_succ hj) (Nat.succ_lt_succ hjk))
          (fun j hj => by
            have := hpass (j + 1) (Nat.succ_lt_succ hj)
            rwa [show i + 1 + j = i + (j + 1) by omega])
      refine ⟨m2, hm2inv, ?_⟩
      rw [hstep, hrec]
      have hidx : i + 1 + k' = i + (k' + 1) := by omega
      rw [hidx]
      have hexec := exec_append_shift st.executed i k'
      simp only [List.drop_succ_cons]
      rw [hexec]

/-- Glueing two consecutive mapped ranges of executed indices. -/
theorem map_range_add (i a b : Nat) :
    (List.range a).map (fun j => i + j) ++
      (List.range b).map (fun j => i + a + j) =
      (List.range (a + b)).map (fun j => i + j) := by
  induction b with
  | zero => simp
  | succ m ihm =>
    rw [List.range_succ, List.map_append, ← List.append_assoc, ihm,
        show a + (m + 1) = (a + m) + 1 by omega, ← map_range_append_last]
    simp only [List.map_cons, List.map_nil]
    congr 2
    omega

/-- Completing the run-phase loop over units that all pass: the final
status/result depend only on whether a Fail was already recorded, every
remaining unit executes, and everything is checked in at the end. -/
theorem runTests_allpass (tcName : String) (preps : List (String × TestPrepU))
    (outcomes : Nat → UnitOutcome) (now : Int) :
    ∀ (us : List TestUnit) (i : Nat) (st : RunState),
      prepInv preps st.suts →
      (∀ u ∈ us, ∃ t, TestUnit.timeoutAttr u = some t ∧
        0 < t ∧ t ≤ maxCheckoutTime) →
      (∀ j, j < us.length → outcomes (i + j) = .pass) →
      (runTests tcName preps outcomes now us i st).2 =
        (if st.status = .fail then .failureExn st.message else .normal) ∧
      (runTests tcName preps outcomes now us i st).1.status =
        (if st.status = .fail then .fail else .pass) ∧
      (runTests tcName preps outcomes now us i st).1.message = st.message ∧
      (runTests tcName preps outcomes now us i st).1.executed =
        st.executed ++ (List.range us.length).map (fun j => i + j) ∧
      allCheckedIn preps (runTests tcName preps outcomes now us i st).1.suts := by
  intro us
  induction us with
  | nil =>
    intro i st hinv _ _
    have hall : ∀ rid p, (rid, p) ∈ preps →
        ∀ s, lookupSut (checkinResources preps st.suts now) p.sut_alias = some s →
          s.in_use = false :=
      fun rid p hmem s hs =>
        checkinResources_all_false preps now st.suts rid p hmem s hs
    by_cases hst : st.status = .fail
    · refine ⟨by simp [runTests, hst], by simp [runTests, hst],
        by simp [runTests, hst], by simp [runTests, hst], ?_⟩
      simpa [runTests, hst, allCheckedIn] using hall
    · refine ⟨by simp [runTests, hst], by simp [runTests, hst],
        by simp [runTests, hst], by simp [runTests, hst], ?_⟩
      simpa [runTests, hst, allCheckedIn] using hall
  | cons u rest ih =>
    intro i st hinv hval hpass
    obtain ⟨t, ht, ht1, ht2⟩ := hval u (List.mem_cons_self _ _)
    have hupd : (updateResourceTimeouts tcName preps st.suts now t).2 = none :=
      updateGo_ok tcName now t ⟨ht1, ht2⟩ preps st.suts hinv
    have ho : outcomes i = .pass := by simpa using hpass 0 (Nat.succ_pos _)
    rw [runTests_step_pass tcName preps outcomes now u rest i st t ht hupd ho]
    obtain ⟨h1, h2, h3, h4, h5⟩ :=
      ih (i + 1)
        { st with suts := (updateResourceTimeouts tcName preps st.suts now t).1,
                  executed := st.executed ++ [i] }
        (prepInv_update tcName preps st.suts now t hinv)
        (fun v hv => hval v (List.mem_cons_of_mem _ hv))
        (fun j hj => by
          have := hpass (j + 1) (Nat.succ_lt_succ hj)
          rwa [show i + 1 + j = i + (j + 1) by omega])
    refine ⟨by simpa using h1, by simpa using h2, by simpa using h3, ?_, h5⟩
    rw [h4]
    simp only [List.length_cons]
    exact exec_append_shift st.executed i rest.length

/-- The core of C2: units up to `k` pass, unit `k` raises `FatalError` — the
loop stops at `k`, checks everything in, records Fatal and re-raises. -/
theorem runTests_fatal_at (tcName : String) (preps : List (String × TestPrepU))
    (outcomes : Nat → UnitOutcome) (now : Int)
    (us : List TestUnit) (k i : Nat) (st : RunState) (hk : k < us.length)
    (hinv : prepInv preps st.suts)
    (htv : ∀ j (hj : j < us.length), j ≤ k →
      ∃ t, (us.get ⟨j, hj⟩).timeoutAttr = some t ∧
        0 < t ∧ t ≤ maxCheckoutTime)
    (hpass : ∀ j, j < k → outcomes (i + j) = .pass)
    (fm : String) (hfat : outcomes (i + k) = .fatal fm) :
    (runTests tcName preps outcomes now us i st).2 =
      .fatalExn (unitFatalMsg (us.get ⟨k, hk⟩).nameOf tcName fm) ∧
    (runTests tcName preps outcomes now us i st).1.status = .fatal ∧
    (runTests tcName preps outcomes now us i st).1.message =
      unitFatalMsg (us.get ⟨k, hk⟩).nameOf tcName fm ∧
    (runTests tcName preps outcomes now us i st).1.executed =
      st.executed ++ (List.range (k + 1)).map (fun j => i + j) ∧
    allCheckedIn preps (runTests tcName preps outcomes now us i st).1.suts := by
  obtain ⟨m1, hm1inv, heq⟩ :=
    runTests_pass_prefix tcName preps outcomes now us k i st hinv
      (Nat.le_of_lt hk)
      (fun j hj hjk => htv j hj (Nat.le_of_lt hjk)) hpass
  rw [heq]
  rw [List.drop_eq_getElem_cons hk]
  obtain ⟨t, ht, ht1, ht2⟩ := htv k hk (Nat.le_refl k)
  have htg : (us.get ⟨k, hk⟩).timeoutAttr = some t := ht
  have hupd : (updateResourceTimeouts tcName preps m1 now t).2 = none :=
    updateGo_ok tcName now t ⟨ht1, ht2⟩ preps m1 hm1inv
  rw [show us[k] = us.get ⟨k, hk⟩ from rfl]
  rw [runTests_step_fatal tcName preps outcomes now (us.get ⟨k, hk⟩) _ (i + k)
    { suts := m1, status := st.status, message := st.message,
      executed := st.executed ++ (List.range k).map (fun j => i + j) }
    t fm htg (by simpa using hupd) hfat]
  refine ⟨rfl, rfl, rfl, ?_, ?_⟩
  · simp only []
    rw [List.append_assoc, map_range_append_last]
  · intro rid p hmem s hs
    exact checkinResources_all_false preps now _ rid p hmem s hs

/-- The core of C3: one unit raises `Failure`, all others pass — every unit still
executes, status ends Fail with the composed message, everything is checked
in and `Failure` is raised at completion. -/
theorem runTests_single_failure (tcName : String) (preps : List (String × TestPrepU))
    (outcomes : Nat → UnitOutcome) (now : Int)
    (us : List TestUnit) (j0 i : Nat) (st : RunState) (hj0 : j0 < us.length)
    (hinv : prepInv preps st.suts)
    (hval : ∀ u ∈ us, ∃ t, TestUnit.timeoutAttr u = some t ∧
      0 < t ∧ t ≤ maxCheckoutTime)
    (hpass : ∀ j, j < us.length → j ≠ j0 → outcomes (i + j) = .pass)
    (fm : String) (hfail : outcomes (i + j0) = .failure fm) :
    (runTests tcName preps outcomes now us i st).2 =
      .failureExn (unitFailMsg (us.get ⟨j0, hj0⟩).nameOf tcName fm) ∧
    (runTests tcName preps outcomes now us i st).1.status = .fail ∧
    (runTests tcName preps outcomes now us i st).1.message =
      unitFailMsg (us.get ⟨j0, hj0⟩).nameOf tcName fm ∧
    (runTests tcName preps outcomes now us i st).1.executed =
      st.executed ++ (List.range us.length).map (fun j => i + j) ∧
    allCheckedIn preps (runTests tcName preps outcomes now us i st).1.suts := by
  obtain ⟨m1, hm1inv, heq⟩ :=
    runTests_pass_prefix tcName preps outcomes now us j0 i st hinv
      (Nat.le_of_lt hj0)
      (fun j hj _ => hval (us.get ⟨j, hj⟩) (us.get_mem _ _))
      (fun j hj => hpass j (Nat.lt_trans hj hj0) (Nat.ne_of_lt hj))
  rw [heq]
  rw [List.drop_eq_getElem_cons hj0]
  obtain ⟨t, ht, ht1, ht2⟩ := hval (us.get ⟨j0, hj0⟩) (us.get_mem _ _)
  have hupd : (updateResourceTimeouts tcName preps m1 now t).2 = none :=
    updateGo_ok tcName now t ⟨ht1, ht2⟩ preps m1 hm1inv
  rw [show us[j0] = us.get ⟨j0, hj0⟩ from rfl]
  rw [runTests_step_failure tcName preps outcomes now (us.get ⟨j0, hj0⟩) _ (i + j0)
    { suts := m1, status := st.status, message := st.message,
      executed := st.executed ++ (List.range j0).map (fun j => i + j) }
    t fm ht (by simpa using hupd) hfail]
  have hdl : (us.drop (j0 + 1)).length = us.length - (j0 + 1) := List.length_drop _ _
  obtain ⟨h1, h2, h3, h4, h5⟩ :=
    runTests_allpass tcName preps outcomes now (us.drop (j0 + 1)) (i + j0 + 1)
      { suts := (updateResourceTimeouts tcName preps m1 now t).1,
        status := .fail,
        message := unitFailMsg (us.get ⟨j0, hj0⟩).nameOf tcName fm,
        executed := (st.executed ++ (List.range j0).map (fun j => i + j)) ++ [i + j0] }
      (prepInv_update tcName preps m1 now t hm1inv)
      (fun v hv => hval v (List.mem_of_mem_drop hv))
      (fun j hj => by
        have hjlen : j0 + 1 + j < us.length := by
          rw [hdl] at hj
          omega
        have := hpass (j0 + 1 + j) hjlen (by omega)
        rwa [show i + j0 + 1 + j = i + (j0 + 1 + j) by omega])
  refine ⟨by simpa using h1, by simpa using h2, by simpa using h3, ?_, h5⟩
  rw [h4, hdl, List.append_assoc, List.append_assoc, List.singleton_append,
      cons_range_shift (i + j0) (us.length - (j0 + 1)),
      map_range_add i j0 (us.length - (j0 + 1) + 1),
      show j0 + (us.length - (j0 + 1) + 1) = us.length by omega]

/-- Unpack `hasValidTimeout`. -/
theorem hasValidTimeout_spec (u : TestUnit) (h : hasValidTimeout u = true) :
    ∃ t, u.timeoutAttr = some t ∧ 0 < t ∧ t ≤ maxCheckoutTime := by
  unfold hasValidTimeout at h
  cases ht : u.timeoutAttr with
  | none => rw [ht] at h; exact Bool.noConfusion h
  | some t =>
    rw [ht] at h
    exact ⟨t, rfl, of_decide_eq_true h⟩

/-! ## Lemmas about the TestPlan/TestRun sequencer -/

/-- A run of children that all return normally: the sequencer finishes,
keeping a previously recorded Fail (raising `Failure`) or passing. -/
theorem seqGo_all_ok (cn con nm : String) :
    ∀ (children : List (String × ChildOutcome)) (st : Status) (msg : String)
      (n : Nat),
      (∀ c ∈ children, c.2 = .ok) →
      seqGo cn con nm children st msg n =
        (if st = .fail then ⟨.fail, msg, .failureExn msg, n + children.length⟩
         else ⟨.pass, msg, .normal, n + children.length⟩) := by
  intro children
  induction children with
  | nil =>
    intro st msg n _
    unfold seqGo
    by_cases hst : st = .fail <;> simp [hst]
  | cons c tl ih =>
    intro st msg n hok
    have hc : c.2 = .ok := hok c (List.mem_cons_self _ _)
    obtain ⟨cname, oc⟩ := c
    simp only at hc
    subst hc
    simp only [seqGo]
    rw [ih st msg (n + 1) (fun d hd => hok d (List.mem_cons_of_mem _ hd))]
    by_cases hst : st = .fail <;> simp [hst, List.length_cons]
    · omega
    · omega

/-- A child raising `FatalError` at position `j` (no earlier child fatal):
the sequencer stops right after it, status Fail, `FatalError` re-raised. -/
theorem seqGo_fatal_at (cn con nm : String) :
    ∀ (children : List (String × ChildOutcome)) (j : Nat)
      (hj : j < children.length) (m : String) (st : Status) (msg : String)
      (n : Nat),
      (children.get ⟨j, hj⟩).2 = .fatalErr m →
      (∀ jj (hjj : jj < children.length), jj < j →
        ∀ m', (children.get ⟨jj, hjj⟩).2 ≠ .fatalErr m') →
      seqGo cn con nm children st msg n =
        ⟨.fail, childFatalMsg cn con nm (children.get ⟨j, hj⟩).1 m,
         .fatalExn (childFatalMsg cn con nm (children.get ⟨j, hj⟩).1 m),
         n + (j + 1)⟩ := by
  intro children
  induction children with
  | nil =>
    intro j hj
    exact absurd hj (Nat.not_lt_zero j)
  | cons c tl ih =>
    intro j hj m st msg n hfat hprior
    obtain ⟨cname, oc⟩ := c
    cases j with
    | zero =>
      simp only [List.get] at hfat
      subst hfat
      simp [seqGo]
    | succ j' =>
      have hcnotfat : ∀ m', oc ≠ .fatalErr m' := by
        intro m' hoc
        exact hprior 0 (Nat.succ_pos _) (Nat.succ_pos _) m' (by simpa using hoc)
      have hrec := ih j' (Nat.lt_of_succ_lt_succ hj) m
      have hprior' : ∀ jj (hjj : jj < tl.length), jj < j' →
          ∀ m', (tl.get ⟨jj, hjj⟩).2 ≠ .fatalErr m' :=
        fun jj hjj hlt m' =>
          hprior (jj + 1) (Nat.succ_lt_succ hjj) (Nat.succ_lt_succ hlt) m'
      cases oc with
      | ok =>
        simp only [seqGo]
        rw [hrec st msg (n + 1) (by simpa using hfat) hprior']
        simp only [List.get]
        congr 1
        omega
      | failure fm =>
        simp only [seqGo]
        rw [hrec .fail (childFailMsg cn con nm cname fm) (n + 1)
          (by simpa using hfat) hprior']
        simp only [List.get]
        congr 1
        omega
      | fatalErr fm => exact absurd rfl (hcnotfat fm)

/-- Exactly one child raises `Failure`, every other returns normally: all
children still run, status ends Fail with the composed message, and
`Failure` is raised after the loop. -/
theorem seqGo_single_failure (cn con nm : String) :
    ∀ (children : List (String × ChildOutcome)) (j : Nat)
      (hj : j < children.length) (m : String) (st : Status) (msg : String)
      (n : Nat),
      (children.get ⟨j, hj⟩).2 = .failure m →
      (∀ jj (hjj : jj < children.length), jj ≠ j →
        (children.get ⟨jj, hjj⟩).2 = .ok) →
      seqGo cn con nm children st msg n =
        ⟨.fail, childFailMsg cn con nm (children.get ⟨j, hj⟩).1 m,
         .failureExn (childFailMsg cn con nm (children.get ⟨j, hj⟩).1 m),
         n + children.length⟩ := by
  intro children
  induction children with
  | nil =>
    intro j hj
    exact absurd hj (Nat.not_lt_zero j)
  | cons c tl ih =>
    intro j hj m st msg n hfail hothers
    obtain ⟨cname, oc⟩ := c
    cases j with
    | zero =>
      simp only [List.get] at hfail
      subst hfail
      simp only [seqGo]
      rw [seqGo_all_ok cn con nm tl .fail
        (childFailMsg cn con nm cname m) (n + 1)
        (fun d hd => by
          obtain ⟨jj, hget⟩ := List.mem_iff_get.mp hd
          have h2 := hothers (jj + 1) (Nat.succ_lt_succ jj.isLt)
            (Nat.succ_ne_zero jj)
          simp only [List.get] at h2
          rw [← hget]
          exact h2)]
      rw [if_pos rfl]
      simp only [List.get, List.length_cons]
      congr 1
      omega
    | succ j' =>
      have hcok : oc = .ok := by
        have := hothers 0 (Nat.succ_pos _) (Nat.succ_ne_zero j').symm
        simpa using this
      subst hcok
      simp only [seqGo]
      rw [ih j' (Nat.lt_of_succ_lt_succ hj) m st msg (n + 1)
        (by simpa using hfail)
        (fun jj hjj hne =>
          hothers (jj + 1) (Nat.succ_lt_succ hjj)
            (fun hx => hne (Nat.succ_injective hx)))]
      simp only [List.get, List.length_cons]
      congr 1
      omega

/-! ## Claim theorems -/

/-- C4: checkout exclusivity and stale-lock self-heal — for every in-range
timeout, `checkout` immediately after construction succeeds leaving
`in_use = true` and `lock_expiration = now + t`; a second checkout while
in use and before expiry raises `BusyError`; a checkout while in use but
after expiry performs an implicit checkin (invoking the machine
`tear_down`) and then succeeds. -/
theorem c4_checkout_exclusivity_and_self_heal
    (t0 t t2 t3 now now2 now3 : Int)
    (h1 : 0 < t) (h2 : t ≤ maxCheckoutTime)
    (h3 : 0 < t2) (h4 : t2 ≤ maxCheckoutTime)
    (h5 : 0 < t3) (h6 : t3 ≤ maxCheckoutTime)
    (hbusy : now2 < now + t) (hstale : now3 > now + t) :
    (SutState.new t0).checkout now t false =
      ⟨⟨true, now + t⟩, [.setup], none, false⟩ ∧
    SutState.checkout ⟨true, now + t⟩ now2 t2 false =
      ⟨⟨true, now + t⟩, [], some .busy, false⟩ ∧
    SutState.checkout ⟨true, now + t⟩ now3 t3 false =
      ⟨⟨true, now3 + t3⟩, [.tearDown, .setup], none, false⟩ := by
  refine ⟨?_, ?_, ?_⟩
  · simp [SutState.new, SutState.checkout, SutState.checkin, h1, h2]
  · simp [SutState.checkout, h3, h4, hbusy]
  · have hnb : ¬now3 < now + t := by omega
    simp [SutState.checkout, SutState.checkin, h5, h6, hnb, hstale]

/-- C4 witness: the three parts at `t0 = 0`, `t = 5`, `now = 0`,
`now2 = 3`, `now3 = 10`. -/
theorem c4_witness :
    (SutState.new 0).checkout 0 5 false = ⟨⟨true, 5⟩, [.setup], none, false⟩ ∧
    SutState.checkout ⟨true, 5⟩ 3 6 false = ⟨⟨true, 5⟩, [], some .busy, false⟩ ∧
    SutState.checkout ⟨true, 5⟩ 10 7 false =
      ⟨⟨true, 17⟩, [.tearDown, .setup], none, false⟩ :=
  c4_checkout_exclusivity_and_self_heal 0 5 6 7 0 3 10
    (by decide) (by decide) (by decide) (by decide) (by decide) (by decide)
    (by decide) (by decide)

/-- C9 (implicit): no rollback of the lock on provisioning failure — if
`checkout` passes the range and busy checks but `machine.setup()` raises,
the error propagates while the SUT is left `in_use = true` with
`lock_expiration = now + t`. -/
theorem c9_no_rollback_on_setup_failure (s : SutState) (now t : Int)
    (h1 : 0 < t) (h2 : t ≤ maxCheckoutTime)
    (hnb : ¬(s.in_use = true ∧ now < s.lock_expiration)) :
    (s.checkout now t true).state = ⟨true, now + t⟩ ∧
    (s.checkout now t true).err = none ∧
    (s.checkout now t true).setupRaised = true := by
  unfold SutState.checkout
  rw [if_neg (not_not_intro ⟨h1, h2⟩), if_neg hnb]
  exact ⟨rfl, rfl, rfl⟩

/-- C9 witness: a fresh SUT, `checkout(5)` at instant 0 with a failing
`setup()`. -/
theorem c9_witness :
    (SutState.checkout ⟨false, 0⟩ 0 5 true).state = ⟨true, 0 + 5⟩ ∧
    (SutState.checkout ⟨false, 0⟩ 0 5 true).err = none ∧
    (SutState.checkout ⟨false, 0⟩ 0 5 true).setupRaised = true :=
  c9_no_rollback_on_setup_failure ⟨false, 0⟩ 0 5 (by decide) (by decide)
    (by decide)

/-- C10 (implicit): exact-expiry boundary — a checkout at the exact instant
`now = lock_expiration` of a held lock neither raises the busy error nor
takes the implicit-checkin path (both comparisons are strict): it succeeds,
overwrites the lock, and never calls `tear_down`. -/
theorem c10_exact_expiry_boundary (now t : Int)
    (h1 : 0 < t) (h2 : t ≤ maxCheckoutTime) :
    SutState.checkout ⟨true, now⟩ now t false =
      ⟨⟨true, now + t⟩, [.setup], none, false⟩ := by
  simp [SutState.checkout, h1, h2]

/-- C10 witness: the boundary call at `now = lock_expiration = 4`,
`t = 5`. -/
theorem c10_witness :
    SutState.checkout ⟨true, 4⟩ 4 5 false =
      ⟨⟨true, 4 + 5⟩, [.setup], none, false⟩ :=
  c10_exact_expiry_boundary 4 5 (by decide) (by decide)

/-- C1: all-or-nothing checkout — if the checkout of any resource raises a busy
or range error during the checkout phase (the only errors that phase can
raise), `TestCase.execute` ends immediately with status Fatal and a raised
`FatalError`, and every registered resource is checked in
(`in_use = false`), including ones never checked out. -/
theorem c1_all_or_nothing_checkout (tc : TestCase) (suts : SutMap) (now : Int)
    (outcomes : Nat → UnitOutcome) (msg : String)
    (herr : (checkoutResources tc.name tc.test_preps suts now).2 = some msg) :
    testCaseExecute tc suts now outcomes =
      ({ suts := (checkoutResources tc.name tc.test_preps suts now).1,
         status := .fatal, message := msg, executed := [] },
       .fatalExn msg) ∧
    allCheckedIn tc.test_preps (testCaseExecute tc suts now outcomes).1.suts := by
  have hexe : testCaseExecute tc suts now outcomes =
      ({ suts := (checkoutResources tc.name tc.test_preps suts now).1,
         status := .fatal, message := msg, executed := [] },
       .fatalExn msg) := by
    simp only [testCaseExecute, herr]
  refine ⟨hexe, ?_⟩
  rw [hexe]
  intro rid p hmem s hs
  have hpair : checkoutResources tc.name tc.test_preps suts now =
      ((checkoutResources tc.name tc.test_preps suts now).1, some msg) := by
    rw [← herr]
  exact checkoutGo_err_allfalse tc.name tc.test_preps now tc.test_preps suts
    _ msg hpair rid p hmem s hs

/-- C1 witness: three registered resources with the second one busy — the
execute ends `FatalError` with the busy message and resources 1, 2, 3 all
end checked in. -/
theorem c1_witness :
    testCaseExecute busyCaseTC busyCaseSuts 0 (fun _ => .pass) =
      ({ suts := (checkoutResources busyCaseTC.name busyCaseTC.test_preps
           busyCaseSuts 0).1,
         status := .fatal, message := busyMsg "r2" "TC1", executed := [] },
       .fatalExn (busyMsg "r2" "TC1")) :=
  (c1_all_or_nothing_checkout busyCaseTC busyCaseSuts 0 (fun _ => .pass)
    (busyMsg "r2" "TC1") (by decide)).1

/-- C2: Fatal aborts immediately — if units before `k` pass and the
`execute()` of unit `k` raises `FatalError`, then exactly units `0..k` were executed
(none after `k`), every registered resource is checked in, the status ends
Fatal and a `FatalError` with the composed message is re-raised. -/
theorem c2_fatal_aborts_immediately (tc : TestCase) (suts : SutMap)
    (now : Int) (outcomes : Nat → UnitOutcome) (k : Nat)
    (hk : k < tc.tests.length) (fm : String)
    (hck : (checkoutResources tc.name tc.test_preps suts now).2 = none)
    (htv : ∀ j (hj : j < tc.tests.length), j ≤ k →
      hasValidTimeout (tc.tests.get ⟨j, hj⟩) = true)
    (hpass : ∀ j, j < k → outcomes j = .pass)
    (hfat : outcomes k = .fatal fm) :
    (testCaseExecute tc suts now outcomes).2 =
      .fatalExn (unitFatalMsg (tc.tests.get ⟨k, hk⟩).nameOf tc.name fm) ∧
    (testCaseExecute tc suts now outcomes).1.status = .fatal ∧
    (testCaseExecute tc suts now outcomes).1.executed = List.range (k + 1) ∧
    allCheckedIn tc.test_preps (testCaseExecute tc suts now outcomes).1.suts := by
  have hexe : testCaseExecute tc suts now outcomes =
      runTests tc.name tc.test_preps outcomes now tc.tests 0
        { suts := (checkoutResources tc.name tc.test_preps suts now).1,
          status := .running, message := tc.message, executed := [] } := by
    simp only [testCaseExecute, hck]
  have hpairck : checkoutResources tc.name tc.test_preps suts now =
      ((checkoutResources tc.name tc.test_preps suts now).1, none) := by
    rw [← hck]
  have hinv : prepInv tc.test_preps
      (checkoutResources tc.name tc.test_preps suts now).1 :=
    checkoutResources_ok_inv tc.name tc.test_preps suts _ now hpairck
  obtain ⟨h1, h2, h3, h4, h5⟩ :=
    runTests_fatal_at tc.name tc.test_preps outcomes now tc.tests k 0
      { suts := (checkoutResources tc.name tc.test_preps suts now).1,
        status := .running, message := tc.message, executed := [] }
      hk hinv
      (fun j hj hjk => hasValidTimeout_spec _ (htv j hj hjk))
      (fun j hj => by rw [Nat.zero_add]; exact hpass j hj)
      fm (by rw [Nat.zero_add]; exact hfat)
  rw [hexe]
  exact ⟨h1, h2, by rw [h4]; simp, h5⟩

/-- C2 witness: a prep plus three steps where unit 1 raises `FatalError` —
only units 0 and 1 execute, status ends Fatal, both resources checked
in. -/
theorem c2_witness :
    (testCaseExecute fatalCaseTC fatalCaseSuts 0 fatalCaseOutcomes).1.executed
      = List.range 2 ∧
    (testCaseExecute fatalCaseTC fatalCaseSuts 0 fatalCaseOutcomes).1.status
      = .fatal := by
  have h := c2_fatal_aborts_immediately fatalCaseTC fatalCaseSuts 0
    fatalCaseOutcomes 1 (by decide) "lost VM" (by decide)
    (by
      intro j hj hjk
      have hj01 : j = 0 ∨ j = 1 := by omega
      rcases hj01 with h | h <;> subst h <;> rfl)
    (by
      intro j hj
      have hj0 : j = 0 := by omega
      subst hj0
      rfl)
    (by rfl)
  exact ⟨h.2.2.1, h.2.1⟩

/-- C3: Fail does not abort siblings — with one queued unit raising
`Failure` and the rest passing, every queued unit still executes, status
ends Fail with the composed message naming the failing unit and the
TestCase, every registered resource is checked in, and `Failure` is raised
at completion. -/
theorem c3_fail_does_not_abort (tc : TestCase) (suts : SutMap) (now : Int)
    (outcomes : Nat → UnitOutcome) (j0 : Nat) (hj0 : j0 < tc.tests.length)
    (fm : String)
    (hck : (checkoutResources tc.name tc.test_preps suts now).2 = none)
    (hval : ∀ u ∈ tc.tests, hasValidTimeout u = true)
    (hpass : ∀ j, j < tc.tests.length → j ≠ j0 → outcomes j = .pass)
    (hfail : outcomes j0 = .failure fm) :
    (testCaseExecute tc suts now outcomes).2 =
      .failureExn (unitFailMsg (tc.tests.get ⟨j0, hj0⟩).nameOf tc.name fm) ∧
    (testCaseExecute tc suts now outcomes).1.status = .fail ∧
    (testCaseExecute tc suts now outcomes).1.message =
      unitFailMsg (tc.tests.get ⟨j0, hj0⟩).nameOf tc.name fm ∧
    (testCaseExecute tc suts now outcomes).1.executed =
      List.range tc.tests.length ∧
    allCheckedIn tc.test_preps (testCaseExecute tc suts now outcomes).1.suts := by
  have hexe : testCaseExecute tc suts now outcomes =
      runTests tc.name tc.test_preps outcomes now tc.tests 0
        { suts := (checkoutResources tc.name tc.test_preps suts now).1,
          status := .running, message := tc.message, executed := [] } := by
    simp only [testCaseExecute, hck]
  have hpairck : checkoutResources tc.name tc.test_preps suts now =
      ((checkoutResources tc.name tc.test_preps suts now).1, none) := by
    rw [← hck]
  have hinv : prepInv tc.test_preps
      (checkoutResources tc.name tc.test_preps suts now).1 :=
    checkoutResources_ok_inv tc.name tc.test_preps suts _ now hpairck
  obtain ⟨h1, h2, h3, h4, h5⟩ :=
    runTests_single_failure tc.name tc.test_preps outcomes now tc.tests j0 0
      { suts := (checkoutResources tc.name tc.test_preps suts now).1,
        status := .running, message := tc.message, executed := [] }
      hj0 hinv
      (fun u hu => hasValidTimeout_spec u (hval u hu))
      (fun j hj hne => by rw [Nat.zero_add]; exact hpass j hj hne)
      fm (by rw [Nat.zero_add]; exact hfail)
  rw [hexe]
  exact ⟨h1, h2, h3, by rw [h4]; simp, h5⟩

/-- C3 witness: queue `[prep(ok), step(fails), step(ok)]` — all three units
execute, status ends Fail, the resource is checked in. -/
theorem c3_witness :
    (testCaseExecute failCaseTC fatalCaseSuts 0 failCaseOutcomes).1.executed
      = List.range 3 ∧
    (testCaseExecute failCaseTC fatalCaseSuts 0 failCaseOutcomes).1.status
      = .fail := by
  have h := c3_fail_does_not_abort failCaseTC fatalCaseSuts 0 failCaseOutcomes
    1 (by decide) "bad exit" (by decide) (by decide)
    (by
      intro j hj hne
      have hlen : failCaseTC.tests.length = 3 := rfl
      rw [hlen] at hj
      have hj02 : j = 0 ∨ j = 2 := by omega
      rcases hj02 with h | h <;> subst h <;> rfl)
    (by rfl)
  exact ⟨h.2.2.2.1, h.2.1⟩

/-- C7: SUT lock-contract violations become TestCase-level Fatal — the
run-phase loop can never let the not-checked-out `CoreError` escape (it is
unreachable after a successful checkout), a checkout-phase busy/range error
ends the execute as Fatal with a raised `FatalError`, and a range
`FatalError` from the per-unit lock refresh is converted to a TestCase
Fatal with all resources checked in. -/
theorem c7_lock_errors_become_fatal (tc : TestCase) (suts : SutMap)
    (now : Int) (outcomes : Nat → UnitOutcome) :
    (∀ msg, (testCaseExecute tc suts now outcomes).2 ≠ .rawCoreError msg) ∧
    (∀ msg, (checkoutResources tc.name tc.test_preps suts now).2 = some msg →
      (testCaseExecute tc suts now outcomes).1.status = .fatal ∧
      (testCaseExecute tc suts now outcomes).2 = .fatalExn msg) ∧
    (∀ (u : TestUnit) (rest : List TestUnit) (i : Nat) (st : RunState)
       (t : Int) (msg : String),
      u.timeoutAttr = some t →
      (updateResourceTimeouts tc.name tc.test_preps st.suts now t).2 =
        some (.fatal msg) →
      (runTests tc.name tc.test_preps outcomes now (u :: rest) i st).2 =
        .fatalExn (unitFatalMsg u.nameOf tc.name msg) ∧
      (runTests tc.name tc.test_preps outcomes now (u :: rest) i st).1.status
        = .fatal ∧
      allCheckedIn tc.test_preps
        (runTests tc.name tc.test_preps outcomes now (u :: rest) i st).1.suts) := by
  refine ⟨?_, ?_, ?_⟩
  · intro msg
    cases hck : (checkoutResources tc.name tc.test_preps suts now).2 with
    | some m =>
      simp only [testCaseExecute, hck]
      simp
    | none =>
      have hexe : testCaseExecute tc suts now outcomes =
          runTests tc.name tc.test_preps outcomes now tc.tests 0
            { suts := (checkoutResources tc.name tc.test_preps suts now).1,
              status := .running, message := tc.message, executed := [] } := by
        simp only [testCaseExecute, hck]
      have hpairck : checkoutResources tc.name tc.test_preps suts now =
          ((checkoutResources tc.name tc.test_preps suts now).1, none) := by
        rw [← hck]
      have hinv : prepInv tc.test_preps
          (checkoutResources tc.name tc.test_preps suts now).1 :=
        checkoutResources_ok_inv tc.name tc.test_preps suts _ now hpairck
      rw [hexe]
      exact runTests_no_rawcore tc.name tc.test_preps outcomes now tc.tests 0
        _ hinv msg
  · intro msg h
    constructor
    · simp only [testCaseExecute, h]
    · simp only [testCaseExecute, h]
  · intro u rest i st t msg ht hupd
    have hstep : runTests tc.name tc.test_preps outcomes now (u :: rest) i st =
        ({ suts := checkinResources tc.test_preps
             (updateResourceTimeouts tc.name tc.test_preps st.suts now t).1 now,
           status := .fatal,
           message := unitFatalMsg u.nameOf tc.name msg,
           executed := st.executed },
         .fatalExn (unitFatalMsg u.nameOf tc.name msg)) := by
      simp only [runTests, ht, hupd]
    rw [hstep]
    refine ⟨rfl, rfl, ?_⟩
    intro rid p hmem s hs
    exact checkinResources_all_false tc.test_preps now _ rid p hmem s hs

/-- C7 witness: the never-raw and checkout-conversion parts at the busy
scenario, and the refresh-range conversion on a step whose timeout 9999 is
out of range. -/
theorem c7_witness :
    (testCaseExecute busyCaseTC busyCaseSuts 0 (fun _ => .pass)).2 ≠
      .rawCoreError "x" ∧
    (testCaseExecute busyCaseTC busyCaseSuts 0 (fun _ => .pass)).1.status
      = .fatal ∧
    (runTests "TC4" refreshCaseTC.test_preps (fun _ => .pass) 0
      [.step "s1" "A" "d1" "" "a.sh" 9999 2] 1
      ⟨[("A", ⟨true, 600⟩)], .running, "", [0]⟩).2 =
      .fatalExn (unitFatalMsg "s1" "TC4" (timeoutInvalidMsg 600 "r1" "TC4")) := by
  have h := c7_lock_errors_become_fatal busyCaseTC busyCaseSuts 0 (fun _ => .pass)
  have h4 := c7_lock_errors_become_fatal refreshCaseTC busyCaseSuts 0 (fun _ => .pass)
  refine ⟨h.1 "x", (h.2.1 (busyMsg "r2" "TC1") (by decide)).1, ?_⟩
  exact (h4.2.2 (.step "s1" "A" "d1" "" "a.sh" 9999 2) [] 1
    ⟨[("A", ⟨true, 600⟩)], .running, "", [0]⟩ 9999
    (timeoutInvalidMsg 600 "r1" "TC4") rfl (by decide)).1

/-- C5: the Smoke E2E scenario — the builder API produces exactly the queue
`[TestPrep(r1), BasicInstaller(Agent), TestStep(Run)]`, but executing it
crashes with `AttributeError` when the loop reads `test.timeout` on the
`BasicInstaller` (no `timeout` property on `_Installer`): only the prep
executes, the status is still Running and "VM-A" is left checked out,
contradicting the claimed Pass-and-checked-in outcome. -/
theorem c5_smoke_scenario :
    smokeBuild = .ok smokeTC ∧
    testCaseExecute smokeTC smokeSuts 0 (fun _ => .pass) =
      ({ suts := [("VM-A", ⟨true, 600⟩)], status := .running, message := "",
         executed := [0] }, .rawAttrError) := by
  constructor
  · rfl
  · decide

/-- C6: the aggregation rule shared by `TestPlan.execute` and
`TestRun.execute` — children all passing gives status Pass; a child raising
`FatalError` (no earlier fatal) stops the loop right after it with status
Fail and a re-raised `FatalError`; a single child raising `Failure` still
lets every other child run, ending status Fail with a raised `Failure`. -/
theorem c6_aggregation_rule (name : String)
    (children : List (String × ChildOutcome)) :
    ((∀ c ∈ children, c.2 = .ok) →
      testPlanExecute name children = ⟨.pass, "", .normal, children.length⟩ ∧
      testRunExecute name children = ⟨.pass, "", .normal, children.length⟩) ∧
    (∀ j (hj : j < children.length) m,
      (children.get ⟨j, hj⟩).2 = .fatalErr m →
      (∀ jj (hjj : jj < children.length), jj < j →
        ∀ m', (children.get ⟨jj, hjj⟩).2 ≠ .fatalErr m') →
      testPlanExecute name children =
        ⟨.fail,
         childFatalMsg "test case" "test plan" name (children.get ⟨j, hj⟩).1 m,
         .fatalExn
           (childFatalMsg "test case" "test plan" name (children.get ⟨j, hj⟩).1 m),
         j + 1⟩ ∧
      testRunExecute name children =
        ⟨.fail,
         childFatalMsg "test plan" "test run" name (children.get ⟨j, hj⟩).1 m,
         .fatalExn
           (childFatalMsg "test plan" "test run" name (children.get ⟨j, hj⟩).1 m),
         j + 1⟩) ∧
    (∀ j (hj : j < children.length) m,
      (children.get ⟨j, hj⟩).2 = .failure m →
      (∀ jj (hjj : jj < children.length), jj ≠ j →
        (children.get ⟨jj, hjj⟩).2 = .ok) →
      testPlanExecute name children =
        ⟨.fail,
         childFailMsg "test case" "test plan" name (children.get ⟨j, hj⟩).1 m,
         .failureExn
           (childFailMsg "test case" "test plan" name (children.get ⟨j, hj⟩).1 m),
         children.length⟩ ∧
      testRunExecute name children =
        ⟨.fail,
         childFailMsg "test plan" "test run" name (children.get ⟨j, hj⟩).1 m,
         .failureExn
           (childFailMsg "test plan" "test run" name (children.get ⟨j, hj⟩).1 m),
         children.length⟩) := by
  refine ⟨?_, ?_, ?_⟩
  · intro hok
    constructor
    · unfold testPlanExecute
      rw [seqGo_all_ok "test case" "test plan" name children .running "" 0 hok]
      simp
    · unfold testRunExecute
      rw [seqGo_all_ok "test plan" "test run" name children .running "" 0 hok]
      simp
  · intro j hj m hfat hprior
    constructor
    · unfold testPlanExecute
      rw [seqGo_fatal_at "test case" "test plan" name children j hj m .running
        "" 0 hfat hprior]
      simp
    · unfold testRunExecute
      rw [seqGo_fatal_at "test plan" "test run" name children j hj m .running
        "" 0 hfat hprior]
      simp
  · intro j hj m hfail hothers
    constructor
    · unfold testPlanExecute
      rw [seqGo_single_failure "test case" "test plan" name children j hj m
        .running "" 0 hfail hothers]
      simp
    · unfold testRunExecute
      rw [seqGo_single_failure "test plan" "test run" name children j hj m
        .running "" 0 hfail hothers]
      simp

/-- C6 witness: an all-ok plan, a plan whose second test case is fatal
(third never runs), and a run whose first plan fails while the second still
runs. -/
theorem c6_witness :
    testPlanExecute "P" [("a", .ok), ("b", .ok)] =
      ⟨.pass, "", .normal, 2⟩ ∧
    testPlanExecute "P" [("a", .ok), ("b", .fatalErr "x"), ("c", .ok)] =
      ⟨.fail, childFatalMsg "test case" "test plan" "P" "b" "x",
       .fatalExn (childFatalMsg "test case" "test plan" "P" "b" "x"), 2⟩ ∧
    testRunExecute "R" [("a", .failure "y"), ("b", .ok)] =
      ⟨.fail, childFailMsg "test plan" "test run" "R" "a" "y",
       .failureExn (childFailMsg "test plan" "test run" "R" "a" "y"), 2⟩ := by
  refine ⟨?_, ?_, ?_⟩
  · exact ((c6_aggregation_rule "P" [("a", .ok), ("b", .ok)]).1 (by decide)).1
  · exact ((c6_aggregation_rule "P"
      [("a", .ok), ("b", .fatalErr "x"), ("c", .ok)]).2.1 1 (by decide) "x"
      (by decide)
      (by
        intro jj hjj hlt m'
        have hjj0 : jj = 0 := by omega
        subst hjj0
        simp [List.get])).1
  · exact ((c6_aggregation_rule "R" [("a", .failure "y"), ("b", .ok)]).2.2 0
      (by decide) "y" (by decide)
      (by
        intro jj hjj hne
        have hlen : ([("a", ChildOutcome.failure "y"), ("b", .ok)]).length = 2 :=
          rfl
        rw [hlen] at hjj
        have hjj1 : jj = 1 := by omega
        subst hjj1
        rfl)).2

/-- C8: installer execution — `BasicInstaller.execute` performs
setup-results, stage, install, get-results in order, turning any
stage/install `CoreError` into status Fatal plus a raised `FatalError` and
ending Pass on success; but `MSIInstaller.execute` calls
`super(BasicInstaller, self)` on an `MSIInstaller` instance, which raises
`TypeError` before anything runs: for every agent behavior, nothing is
attempted and the status stays NotRan — the claim's stage-then-install
contract is unmet for the MSI variant. -/
theorem c8_installer_execute_dispatch :
    (∀ beh, msiInstallerExecute beh = ⟨.notRan, [], some .typeError⟩) ∧
    basicInstallerExecute (fun _ => none) =
      ⟨.pass, [.setupResults, .stage, .install, .getResults], none⟩ ∧
    (∀ m, basicInstallerExecute
        (fun op => if op = .stage then some m else none) =
      ⟨.fatal, [.setupResults, .stage], some (.fatalError m)⟩) ∧
    (∀ m, basicInstallerExecute
        (fun op => if op = .install then some m else none) =
      ⟨.fatal, [.setupResults, .stage, .install], some (.fatalError m)⟩) := by
  refine ⟨fun beh => rfl, rfl, fun m => rfl, fun m => rfl⟩

end Bespoke
